import Mathlib

/-! Arduino Shift Register Library: a shallow embedding of `ShiftRegister.cpp`.

The controller object of `src/ShiftRegister.h` is a record: the four pin numbers, the chip
count `rNum`, the byte array `stateArray` and the `shiftOrder` flag.  One more field, `trace`,
records every call made to the Arduino pin interface (`pinMode`, `digitalWrite`) in the order
the code issues it, so that what the code sends to the chips can be stated.

Conventions of the embedding:

* `HIGH`/`LOW` and `true`/`false` of the source are `Bool`; `MSBFIRST` is `true` (it is `1`),
  `LSBFIRST` is `false`.
* A `uint8_t` is a `Nat`, truncated with `% 256` where the source stores into a byte.
* Index arithmetic (`int`, `unsigned int`) is done on `Nat`: every loop of the source counts
  over at most `8 * rNum` or `bitNum` indices, and the development covers chains and counts
  that fit the `int` of the platform.
* An array access outside the array is undefined in C++; here such an access makes the
  method return `none`.
* A shift by a count at or past the width of its operand (`1UL << bit` with `bit` at or past
  the 32 bits of `unsigned long`) is undefined in C++ as well.  The bit macros below are total
  and take such a shift as shifting every bit out, which is what the shift loop of the AVR
  target computes; another target may take the count modulo the width.  A theorem whose
  content depends on that choice carries the hypothesis that every position it addresses is
  below 32.
* A `for` loop is `forEach body indices`, the list giving the values the loop variable takes,
  in order.
-/

namespace ShiftRegisterLib

/-! ## The Arduino bit macros -/

/-- Modelled from the spec: the macro `bitRead(value, bit)` of the Arduino core header, which
is included by `ShiftRegister.h` and is not among the sources.  The spec calls it `read`
("returns the bit at `index`"); the core defines it as `(((value) >> (bit)) & 0x01)`.  A
position past the width of the value reads `0`. -/
def bitRead (value bit : Nat) : Bool :=
  ((value >>> bit) &&& 1) != 0

/-- Modelled from the spec: the macro `bitSet(value, bit)` of the Arduino core header (not
among the sources), `((value) |= (1UL << (bit)))`, applied to a `uint8_t` lvalue: the mask is
an `unsigned long` of 32 bits and the result is stored back into the byte.  For `bit` below 32
this is the value C++ defines; from 32 on the shift is undefined in C++ and the mask is taken
as `0` here (every bit shifted out), a choice and not a property of the source. -/
def bitSet (value bit : Nat) : Nat :=
  (value ||| ((1 <<< bit) % 2 ^ 32)) % 256

/-- Modelled from the spec: the macro `bitClear(value, bit)` of the Arduino core header (not
among the sources), `((value) &= ~(1UL << (bit)))`, applied to a `uint8_t` lvalue.  For `bit`
below 32 this is the value C++ defines; from 32 on the shift is undefined in C++ and the mask
`1UL << bit` is taken as `0` here, so that nothing is cleared: a choice and not a property of
the source. -/
def bitClear (value bit : Nat) : Nat :=
  (value &&& (2 ^ 32 - 1 - (1 <<< bit) % 2 ^ 32)) % 256

/-- Modelled from the spec: the macro `bitWrite(value, bit, bitvalue)` of the Arduino core
header (not among the sources), `(bitvalue ? bitSet(value, bit) : bitClear(value, bit))`; the
spec calls it `write` ("sets bit `index` to `state`"). -/
def bitWrite (value bit : Nat) (bitvalue : Bool) : Nat :=
  if bitvalue then bitSet value bit else bitClear value bit

/-! ## The controller object -/

/-- One call to the pin interface of the Arduino core. -/
inductive PinEvent where
  | pinMode (pin : Nat)
  | digitalWrite (pin : Nat) (level : Bool)
  deriving DecidableEq, Repr

/-- The data members of `class ShiftRegister`, and the trace of pin calls issued so far. -/
structure ShiftRegister where
  dataPin : Nat
  clockPin : Nat
  latchPin : Nat
  resetPin : Nat
  rNum : Nat
  stateArray : List Nat
  shiftOrder : Bool
  trace : List PinEvent
  deriving DecidableEq, Repr

/-- The values taken by the loop variable of `for(int i = n - 1; i >= 0; i--)`. -/
def descending : Nat → List Nat
  | 0 => []
  | n + 1 => n :: descending n

/-- Runs a loop body for each value of the loop variable, in order; stops with `none` when
the body makes an access outside an array. -/
def forEach (body : Nat → ShiftRegister → Option ShiftRegister) :
    List Nat → ShiftRegister → Option ShiftRegister
  | [], s => some s
  | i :: rest, s => (body i s).bind (forEach body rest)

namespace ShiftRegister

/-- The call `digitalWrite(pin, level)`, recorded in the trace. -/
def digitalWrite (s : ShiftRegister) (pin : Nat) (level : Bool) : ShiftRegister :=
  { s with trace := s.trace ++ [PinEvent.digitalWrite pin level] }

/-- The call `pinMode(pin, OUTPUT)`, recorded in the trace. -/
def pinMode (s : ShiftRegister) (pin : Nat) : ShiftRegister :=
  { s with trace := s.trace ++ [PinEvent.pinMode pin] }

/-- The statement `stateArray[k] = v`. -/
def storeByte (s : ShiftRegister) (k v : Nat) : Option ShiftRegister :=
  if k < s.stateArray.length then some { s with stateArray := s.stateArray.set k v } else none

/-- The statement `bitWrite(stateArray[k], bit, state)`. -/
def bitWriteAt (s : ShiftRegister) (k bit : Nat) (state : Bool) : Option ShiftRegister :=
  (s.stateArray[k]?).bind (fun b => s.storeByte k (bitWrite b bit state))

/-- The macro `saveToArray(a, i)` of `ShiftRegister.h`:
`bitWrite(*stateArray, i, bitRead(*a, i))`. -/
def saveToArray (s : ShiftRegister) (a : List Nat) (i : Nat) : Option ShiftRegister :=
  (a[0]?).bind (fun src => s.bitWriteAt 0 i (bitRead src i))

/-- `ShiftRegister::readBit`: `array[bitIndex/8] & (1<<bitIndex%8)`, as a `bool`. -/
def readBit (array : List Nat) (bitIndex : Nat) : Option Bool :=
  (array[bitIndex / 8]?).map (fun b => (b &&& (1 <<< (bitIndex % 8))) != 0)

/-- `ShiftRegister::shiftBit`. -/
def shiftBit (s : ShiftRegister) (state : Bool) : ShiftRegister :=
  ((s.digitalWrite s.dataPin state).digitalWrite s.clockPin true).digitalWrite s.clockPin false

/-- `ShiftRegister::shiftStateArray`: the loop variable runs from `rNum*8 - 1` down while
`i > bitNum` (for a chain of at least one chip, so that `rNum*8 - 1` is not negative). -/
def shiftStateArray (s : ShiftRegister) (bitNum : Nat) : Option ShiftRegister :=
  forEach (fun i t => t.saveToArray t.stateArray (i - bitNum))
    ((descending (s.rNum * 8)).takeWhile (fun i => decide (bitNum < i))) s

/-- `ShiftRegister::refresh`. -/
def refresh (s : ShiftRegister) : ShiftRegister :=
  (s.digitalWrite s.latchPin true).digitalWrite s.latchPin false

/-- `ShiftRegister::clear`. -/
def clear (s : ShiftRegister) : Option ShiftRegister :=
  forEach (fun i t => t.storeByte i 0) (List.range s.rNum)
    ((((s.digitalWrite s.resetPin false).digitalWrite s.resetPin true).digitalWrite
      s.latchPin true).digitalWrite s.latchPin false)

/-- The constructor `ShiftRegister::ShiftRegister`; `calloc` gives `rNum` zero bytes. -/
def create (_rNum _dataPin _clockPin _latchPin _resetPin : Nat) : Option ShiftRegister :=
  let s0 : ShiftRegister :=
    { dataPin := _dataPin, clockPin := _clockPin, latchPin := _latchPin, resetPin := _resetPin,
      rNum := _rNum, stateArray := List.replicate _rNum 0, shiftOrder := true, trace := [] }
  let s1 := (((s0.pinMode s0.dataPin).pinMode s0.clockPin).pinMode s0.latchPin).pinMode s0.resetPin
  let s2 := (((s1.digitalWrite s1.resetPin true).digitalWrite s1.dataPin false).digitalWrite
    s1.clockPin false).digitalWrite s1.latchPin false
  s2.clear

/-- `ShiftRegister::setShiftOrder`. -/
def setShiftOrder (s : ShiftRegister) (order : Bool) : ShiftRegister :=
  { s with shiftOrder := order }

/-- The body shared by the two loops of `set` and of `shift`:
`shiftBit( readBit(data, i) ); saveToArray(data, i);`. -/
def shiftAndSave (data : List Nat) (i : Nat) (s : ShiftRegister) : Option ShiftRegister :=
  (readBit data i).bind (fun b => (s.shiftBit b).saveToArray data i)

/-- `ShiftRegister::set`. -/
def set (s : ShiftRegister) (data : List Nat) (size : Nat) : Option ShiftRegister :=
  if ¬ (size = s.rNum) then some s
  else
    (if s.shiftOrder = true then forEach (shiftAndSave data) (descending (size * 8)) s
     else forEach (shiftAndSave data) (List.range (size * 8)) s).map refresh

/-- The loop shared by `setBit` and `setBits`: `shiftBit( readBit(stateArray, i) )` for `i`
from `rNum*8 - 1` down to `0`. -/
def shiftWholeArray (s : ShiftRegister) : Option ShiftRegister :=
  forEach (fun i t => (readBit t.stateArray i).map t.shiftBit) (descending (s.rNum * 8)) s

/-- `ShiftRegister::setBit`. -/
def setBit (s : ShiftRegister) (bitIndex : Nat) (state : Bool) : Option ShiftRegister :=
  ((s.bitWriteAt (bitIndex / 8) (bitIndex % 8) state).bind shiftWholeArray).map refresh

/-- `ShiftRegister::setBits`. -/
def setBits (s : ShiftRegister) (bitIndex bitNum : Nat) (state : Bool) : Option ShiftRegister :=
  ((forEach (fun i t => t.bitWriteAt (bitIndex / 8) (bitIndex % 8 + i) state)
    (List.range bitNum) s).bind shiftWholeArray).map refresh

/-- `ShiftRegister::shift`. -/
def shift (s : ShiftRegister) (pattern : List Nat) (size : Nat) : Option ShiftRegister :=
  ((s.shiftStateArray (size * 8)).bind (fun t =>
    if t.shiftOrder = true then forEach (shiftAndSave pattern) (descending (size * 8)) t
    else forEach (shiftAndSave pattern) (List.range (size * 8)) t)).map refresh

/-- `ShiftRegister::shiftState`. -/
def shiftState (s : ShiftRegister) (bitNum : Nat) (state : Bool) : Option ShiftRegister :=
  ((s.shiftStateArray bitNum).bind
    (forEach (fun i t => (t.shiftBit state).bitWriteAt 0 i state) (descending bitNum))).map refresh

/-- `ShiftRegister::shiftOneBit`. -/
def shiftOneBit (s : ShiftRegister) (state : Bool) : Option ShiftRegister :=
  ((s.shiftStateArray 1).bind (fun t => t.bitWriteAt 0 1 state)).map (fun t => t.shiftBit state)

end ShiftRegister

/-! ## Notions of the specification -/

/-- Bit `i` of a byte array as the spec indexes it: bit `i % 8` of byte `i / 8`, bit `0` being
the least significant bit of the first byte. -/
def bitAt (bytes : List Nat) (i : Nat) : Bool :=
  (bytes.getD (i / 8) 0).testBit (i % 8)

/-- The chain of chips as the spec describes it: the shift stages, the latched outputs, and
the levels of the data, clock and latch lines (kept to tell an edge from a repeated level). -/
structure Chain where
  stages : List Bool
  outputs : List Bool
  dataLevel : Bool
  clockLevel : Bool
  latchLevel : Bool
  deriving DecidableEq, Repr

namespace Chain

/-- A chain of `len` stages with every stage, output and line low. -/
def blank (len : Nat) : Chain :=
  { stages := List.replicate len false, outputs := List.replicate len false,
    dataLevel := false, clockLevel := false, latchLevel := false }

/-- The effect of one pin call on the chain wired to the pins of controller `s`: reset LOW
zeroes the stages; a clock HIGH edge moves every stage one index up and loads the data level
into stage 0; a latch HIGH edge copies the stages to the outputs. -/
def step (s : ShiftRegister) (c : Chain) : PinEvent → Chain
  | PinEvent.pinMode _ => c
  | PinEvent.digitalWrite pin level =>
    if pin = s.resetPin then
      (if level then c else { c with stages := c.stages.map (fun _ => false) })
    else if pin = s.dataPin then { c with dataLevel := level }
    else if pin = s.clockPin then
      { c with
        clockLevel := level
        stages := if level && !c.clockLevel then (c.dataLevel :: c.stages).dropLast
                  else c.stages }
    else if pin = s.latchPin then
      { c with
        latchLevel := level
        outputs := if level && !c.latchLevel then c.stages else c.outputs }
    else c

/-- The chain after a sequence of pin calls of controller `s`. -/
def run (s : ShiftRegister) (c : Chain) (events : List PinEvent) : Chain :=
  events.foldl (step s) c

end Chain

/-- The four pins of the controller are four different pins. -/
@[reducible] def distinctPins (s : ShiftRegister) : Prop :=
  s.dataPin ≠ s.clockPin ∧ s.dataPin ≠ s.latchPin ∧ s.dataPin ≠ s.resetPin ∧
  s.clockPin ≠ s.latchPin ∧ s.clockPin ≠ s.resetPin ∧ s.latchPin ≠ s.resetPin

/-- A chain of 16 stages, every stage high and every output low, clock and latch low. -/
def sampleChain : Chain :=
  { stages := List.replicate 16 true, outputs := List.replicate 16 false,
    dataLevel := true, clockLevel := false, latchLevel := false }

/-- The latched outputs of the chain after every pin call the controller has issued since its
construction, the chain starting blank. -/
def latchedOutputs (s : ShiftRegister) : List Bool :=
  (s.trace.foldl (Chain.step s) (Chain.blank (8 * s.rNum))).outputs

/-- The three pin calls of one `shiftBit(state)` on the pins of `s`. -/
def transmission (s : ShiftRegister) (state : Bool) : List PinEvent :=
  [PinEvent.digitalWrite s.dataPin state, PinEvent.digitalWrite s.clockPin true,
   PinEvent.digitalWrite s.clockPin false]

/-- A controller of two chips holding `0xFF, 0x3C`, least significant bit first. -/
def sampleTwoChips : ShiftRegister :=
  { dataPin := 2, clockPin := 3, latchPin := 4, resetPin := 5, rNum := 2,
    stateArray := [0xFF, 0x3C], shiftOrder := false, trace := [] }

/-- A controller of one chip as the constructor leaves it, on the pins 2, 3, 4 and 5. -/
def freshOneChip : Option ShiftRegister :=
  ShiftRegister.create 1 2 3 4 5

/-- A controller of two chips as the constructor leaves it, on the pins 2, 3, 4 and 5. -/
def freshTwoChips : Option ShiftRegister :=
  ShiftRegister.create 2 2 3 4 5

/-- The two pin calls of one `refresh()` on the pins of `s`. -/
def latchPulse (s : ShiftRegister) : List PinEvent :=
  [PinEvent.digitalWrite s.latchPin true, PinEvent.digitalWrite s.latchPin false]

/-- The first byte of the state array after `saveToArray(a, i)` has run for each `i` of
`idxs` in turn, `src` being the first byte of `a` and `b` the first byte of the state array
before the loop. -/
def savedByte (src : Nat) (idxs : List Nat) (b : Nat) : Nat :=
  idxs.foldl (fun x i => bitWrite x i (bitRead src i)) b

/-- The indices a loop of `set` or `shift` over `size` bytes goes through: `size*8 - 1` down
to `0` when the flag is `MSBFIRST`, `0` up to `size*8 - 1` otherwise. -/
def traversal (order : Bool) (size : Nat) : List Nat :=
  if order = true then descending (size * 8) else List.range (size * 8)

/-- The byte after `bitWrite(byte, start + i, state)` has run for `i` from `0` to
`count - 1`, as in the first loop of `setBits`. -/
def filledByte (b start count : Nat) (state : Bool) : Nat :=
  (List.range count).foldl (fun x i => bitWrite x (start + i) state) b

/-- What a caller can observe of a controller: the buffer and the pin calls issued. -/
def observable (s : ShiftRegister) : List Nat × List PinEvent :=
  (s.stateArray, s.trace)


/-! ## Bits of a byte -/

theorem mask_test (b k : Nat) : ((b &&& (1 <<< k)) != 0) = b.testBit k := by
  rw [Nat.one_shiftLeft, Nat.and_two_pow]
  have hpos : 2 ^ k ≠ 0 := (Nat.two_pow_pos k).ne'
  cases h : b.testBit k <;> simp [hpos]

theorem bitRead_eq_testBit (value bit : Nat) : bitRead value bit = value.testBit bit := by
  unfold bitRead Nat.testBit
  rw [Nat.and_comm]

theorem testBit_longMask (k j : Nat) :
    ((1 <<< k) % 2 ^ 32).testBit j = (decide (j < 32) && decide (k = j)) := by
  rw [Nat.one_shiftLeft, Nat.testBit_mod_two_pow, Nat.testBit_two_pow]

theorem testBit_bitSet (b k j : Nat) :
    (bitSet b k).testBit j = (decide (j < 8) && (b.testBit j || decide (k = j))) := by
  unfold bitSet
  rw [show (256 : Nat) = 2 ^ 8 by norm_num, Nat.testBit_mod_two_pow, Nat.testBit_or,
    testBit_longMask]
  by_cases h8 : j < 8
  · have h32 : j < 32 := by omega
    simp [h8, h32]
  · simp [h8]

theorem testBit_bitClear (b k j : Nat) :
    (bitClear b k).testBit j = (decide (j < 8) && (b.testBit j && !decide (k = j))) := by
  unfold bitClear
  have hlt : (1 <<< k) % 2 ^ 32 < 2 ^ 32 := Nat.mod_lt _ (Nat.two_pow_pos 32)
  rw [show (256 : Nat) = 2 ^ 8 by norm_num, Nat.testBit_mod_two_pow, Nat.testBit_and,
    Nat.sub_sub, Nat.add_comm 1, Nat.testBit_two_pow_sub_succ hlt, testBit_longMask]
  by_cases h8 : j < 8
  · have h32 : j < 32 := by omega
    simp [h8, h32]
  · simp [h8]

/-- What `bitWrite` does to each bit of a byte: position `k` takes the new state, the others
keep theirs, and nothing is stored past bit 7. -/
theorem testBit_bitWrite (b k : Nat) (v : Bool) (j : Nat) :
    (bitWrite b k v).testBit j = (decide (j < 8) && (if j = k then v else b.testBit j)) := by
  unfold bitWrite
  by_cases hjk : j = k
  · subst hjk
    cases v <;> simp [testBit_bitSet, testBit_bitClear]
  · have hkj : ¬ k = j := fun h => hjk h.symm
    cases v <;> simp [testBit_bitSet, testBit_bitClear, hjk, hkj]

theorem readBit_eq (array : List Nat) (i : Nat) :
    ShiftRegister.readBit array i = (array[i / 8]?).map (fun b => b.testBit (i % 8)) := by
  unfold ShiftRegister.readBit
  simp only [mask_test]

theorem readBit_eq_bitAt (array : List Nat) (i : Nat) (h : i < 8 * array.length) :
    ShiftRegister.readBit array i = some (bitAt array i) := by
  have hk : i / 8 < array.length := by omega
  rw [readBit_eq]
  simp [bitAt, List.getD, List.getElem?_eq_getElem hk]

/-! ## Loops -/

theorem forEach_append (body : Nat → ShiftRegister → Option ShiftRegister) (xs ys : List Nat)
    (s : ShiftRegister) :
    forEach body (xs ++ ys) s = (forEach body xs s).bind (forEach body ys) := by
  induction xs generalizing s with
  | nil => simp [forEach]
  | cons x xs ih =>
    simp only [List.cons_append, forEach]
    cases body x s with
    | none => simp
    | some t => simp [ih]

theorem shiftBit_eq (s : ShiftRegister) (state : Bool) :
    s.shiftBit state = { s with trace := s.trace ++ transmission s state } := by
  simp [ShiftRegister.shiftBit, ShiftRegister.digitalWrite, transmission]

/-- The loop that re-sends the array, over the indices `n - 1` down to `0`: it returns, it
leaves every data member as it was, and it appends one transmission for each index, carrying
the bit at that index. -/
theorem forEach_resend (n : Nat) (s : ShiftRegister) (h : n ≤ 8 * s.stateArray.length) :
    forEach (fun i t => (ShiftRegister.readBit t.stateArray i).map t.shiftBit) (descending n) s
      = some { s with trace := s.trace ++
          (descending n).flatMap (fun i => transmission s (bitAt s.stateArray i)) } := by
  induction n generalizing s with
  | zero => simp [descending, forEach]
  | succ n ih =>
    have hn : n < 8 * s.stateArray.length := by omega
    simp only [descending, forEach, readBit_eq_bitAt _ _ hn, Option.map_some', Option.some_bind]
    rw [ih]
    · simp [shiftBit_eq, transmission, List.flatMap_cons]
    · simp [shiftBit_eq]; omega

theorem shiftWholeArray_eq (s : ShiftRegister) (h : s.rNum ≤ s.stateArray.length) :
    s.shiftWholeArray = some { s with trace := s.trace ++
      (descending (s.rNum * 8)).flatMap (fun i => transmission s (bitAt s.stateArray i)) } := by
  unfold ShiftRegister.shiftWholeArray
  exact forEach_resend _ s (by omega)

theorem bitWriteAt_eq (s : ShiftRegister) (k bit : Nat) (state : Bool)
    (h : k < s.stateArray.length) :
    s.bitWriteAt k bit state = some { s with
      stateArray := s.stateArray.set k (bitWrite (s.stateArray.getD k 0) bit state) } := by
  simp [ShiftRegister.bitWriteAt, ShiftRegister.storeByte, h, List.getD,
    List.getElem?_eq_getElem h]

/-- Reading bit `j` of an array in which byte `k` was replaced by `bitWrite` at position
`bit < 8`. -/
theorem readBit_set_bitWrite (a : List Nat) (k bit : Nat) (state : Bool) (j : Nat)
    (hk : k < a.length) (hbit : bit < 8) (hj : j < 8 * a.length) :
    ShiftRegister.readBit (a.set k (bitWrite (a.getD k 0) bit state)) j
      = some (if j = 8 * k + bit then state else bitAt a j) := by
  have hjk : j / 8 < a.length := by omega
  have hmod : j % 8 < 8 := Nat.mod_lt _ (by norm_num)
  rw [readBit_eq]
  by_cases hb : j / 8 = k
  · subst hb
    rw [List.getElem?_set_self hjk]
    simp only [Option.map_some', testBit_bitWrite, hmod, decide_True, Bool.true_and]
    by_cases hm : j % 8 = bit
    · have : j = 8 * (j / 8) + bit := by omega
      simp [hm, ← this]
    · have : ¬ j = 8 * (j / 8) + bit := by omega
      simp [hm, this, bitAt]
  · have hne : ¬ j = 8 * k + bit := by omega
    rw [List.getElem?_set_ne (fun h => hb h.symm)]
    simp [hne, bitAt, List.getD, List.getElem?_eq_getElem hjk]

/-- The loop of `clear` over the first `n` bytes: it returns, zeroes those bytes and leaves
the other bytes and the other data members alone. -/
theorem forEach_zero (n : Nat) (s : ShiftRegister) (h : n ≤ s.stateArray.length) :
    forEach (fun i t => t.storeByte i 0) (List.range n) s
      = some { s with stateArray := List.replicate n 0 ++ s.stateArray.drop n } := by
  induction n with
  | zero => simp [forEach]
  | succ n ih =>
    have hn : n < s.stateArray.length := by omega
    rw [List.range_succ, forEach_append, ih (by omega)]
    simp only [Option.some_bind, forEach, ShiftRegister.storeByte]
    have hlen : n < (List.replicate n 0 ++ List.drop n s.stateArray).length := by
      simp; omega
    simp only [hlen, if_true, Option.some_bind]
    congr 2
    rw [List.set_append_right _ _ (by simp), List.replicate_succ', List.append_assoc]
    congr 1
    rw [List.drop_eq_getElem_cons hn]
    simp only [List.length_replicate, Nat.sub_self, List.set_cons_zero, List.singleton_append]


/-! ## The buffer after each operation -/

/-- C1 (the code departs from the claim): two chips just constructed, `set` with the bytes
`0x00, 0xA5`: the call returns with the buffer `0x00, 0x00`, so bit 8, set in the pattern, is
clear in the buffer.  And on a buffer holding `0xFF, 0x3C`, `set` with `0xA5, 0x00` leaves
`0xA5, 0x3C`: the second byte of the prior content stays. -/
theorem set_stores_first_byte_only :
    (freshTwoChips.bind (fun s => s.set [0x00, 0xA5] 2)).map (fun t => t.stateArray)
        = some [0x00, 0x00]
      ∧ ShiftRegister.readBit [0x00, 0xA5] 8 = some true
      ∧ ShiftRegister.readBit [0x00, 0x00] 8 = some false
      ∧ (sampleTwoChips.set [0xA5, 0x00] 2).map (fun t => t.stateArray) = some [0xA5, 0x3C] := by
  decide

/-- C2: `setBit(i, v)` with `i` inside the buffer returns, leaves bit `i` of the buffer equal
to `v`, and leaves every other bit of the buffer as it was before the call, whatever the
buffer held. -/
theorem setBit_changes_only_that_bit (s : ShiftRegister) (bitIndex : Nat) (state : Bool)
    (hlen : s.stateArray.length = s.rNum) (hi : bitIndex < 8 * s.rNum) :
    ∃ t, s.setBit bitIndex state = some t ∧
      ShiftRegister.readBit t.stateArray bitIndex = some state ∧
      ∀ j, j < 8 * s.rNum → j ≠ bitIndex →
        ShiftRegister.readBit t.stateArray j = ShiftRegister.readBit s.stateArray j := by
  have hk : bitIndex / 8 < s.stateArray.length := by omega
  have hbit : bitIndex % 8 < 8 := Nat.mod_lt _ (by norm_num)
  have hsplit : 8 * (bitIndex / 8) + bitIndex % 8 = bitIndex := Nat.div_add_mod bitIndex 8
  unfold ShiftRegister.setBit
  rw [bitWriteAt_eq s _ _ _ hk, Option.some_bind, shiftWholeArray_eq _ (by simp; omega)]
  refine ⟨_, rfl, ?_, ?_⟩
  · have h := readBit_set_bitWrite s.stateArray (bitIndex / 8) (bitIndex % 8) state bitIndex
      hk hbit (by omega)
    simpa [ShiftRegister.refresh, ShiftRegister.digitalWrite, hsplit] using h
  · intro j hj hne
    have h := readBit_set_bitWrite s.stateArray (bitIndex / 8) (bitIndex % 8) state j
      hk hbit (by omega)
    rw [hsplit, if_neg hne] at h
    rw [readBit_eq_bitAt s.stateArray j (by omega)]
    simpa [ShiftRegister.refresh, ShiftRegister.digitalWrite] using h

/-- The theorem on `setBit` at work: bit 9 of a two-chip buffer holding `0xFF, 0x3C`. -/
theorem setBit_changes_only_that_bit_witness :
    sampleTwoChips.stateArray.length = sampleTwoChips.rNum ∧ 9 < 8 * sampleTwoChips.rNum ∧
    ∃ t, sampleTwoChips.setBit 9 true = some t ∧
      ShiftRegister.readBit t.stateArray 9 = some true ∧
      ∀ j, j < 8 * sampleTwoChips.rNum → j ≠ 9 →
        ShiftRegister.readBit t.stateArray j
          = ShiftRegister.readBit sampleTwoChips.stateArray j :=
  ⟨rfl, by decide, setBit_changes_only_that_bit sampleTwoChips 9 true rfl (by decide)⟩

/-- C3 (the code departs from the claim): one chip holding `0x01`, `shiftState(1, false)`:
the buffer becomes `0x00`, the bit that was at index 0 is not found at index 1.  And on two
chips just constructed, `shiftState(16, true)` leaves `0xFF, 0x00`: the inserted bits 8 to 15
do not read `true`. -/
theorem shiftState_overwrites_in_place :
    (freshOneChip.bind (fun s => s.set [0x01] 1)).map (fun t => t.stateArray) = some [0x01]
      ∧ ((freshOneChip.bind (fun s => s.set [0x01] 1)).bind
          (fun s => s.shiftState 1 false)).map (fun t => t.stateArray) = some [0x00]
      ∧ (freshTwoChips.bind (fun s => s.shiftState 16 true)).map (fun t => t.stateArray)
          = some [0xFF, 0x00] := by
  decide

/-- C4 (the code departs from the claim): two chips holding `0x01, 0x00`, `shift` of the one
byte `0x00`: the buffer becomes `0x00, 0x00`, where moving the present state up by 8 would
give `0x00, 0x01`. -/
theorem shift_overwrites_in_place :
    (freshTwoChips.bind (fun s => s.set [0x01, 0x00] 2)).map (fun t => t.stateArray)
        = some [0x01, 0x00]
      ∧ ((freshTwoChips.bind (fun s => s.set [0x01, 0x00] 2)).bind
          (fun s => s.shift [0x00] 1)).map (fun t => t.stateArray) = some [0x00, 0x00]
      ∧ ShiftRegister.readBit [0x01, 0x00] 0 = some true
      ∧ ShiftRegister.readBit [0x00, 0x00] 8 = some false := by
  decide

/-- C5 (the code departs from the claim): two chips, `clear()` and then `shift` of the two
bytes `0x00, 0x01`: the buffer is `0x00, 0x00`, bit 8 of the pattern is not in it. -/
theorem clear_then_shift_loses_second_byte :
    ((freshTwoChips.bind (fun s => s.clear)).bind
        (fun s => s.shift [0x00, 0x01] 2)).map (fun t => t.stateArray) = some [0x00, 0x00]
      ∧ ShiftRegister.readBit [0x00, 0x01] 8 = some true
      ∧ ShiftRegister.readBit [0x00, 0x00] 8 = some false := by
  decide

/-- C6 (the code departs from the claim): two chips just constructed, `setBits(6, 4, true)`:
the buffer becomes `0xC0, 0x00`, bits 6 and 7 are set and bits 8 and 9 are not. -/
theorem setBits_stops_at_byte_boundary :
    (freshTwoChips.bind (fun s => s.setBits 6 4 true)).map (fun t => t.stateArray)
        = some [0xC0, 0x00]
      ∧ ShiftRegister.readBit [0xC0, 0x00] 7 = some true
      ∧ ShiftRegister.readBit [0xC0, 0x00] 8 = some false
      ∧ ShiftRegister.readBit [0xC0, 0x00] 9 = some false := by
  decide

/-- C7: `clear()` returns with every byte of the state array `0`, so that every bit of the
buffer reads `false`, whatever the array held; the shift order flag is as it was. -/
theorem clear_zeroes_buffer (s : ShiftRegister) (hlen : s.stateArray.length = s.rNum) :
    ∃ t, s.clear = some t ∧ t.stateArray = List.replicate s.rNum 0 ∧
      (∀ i, i < 8 * s.rNum → ShiftRegister.readBit t.stateArray i = some false) ∧
      t.shiftOrder = s.shiftOrder := by
  unfold ShiftRegister.clear
  rw [forEach_zero _ _ (by simp [ShiftRegister.digitalWrite, hlen])]
  refine ⟨_, rfl, ?_, ?_, ?_⟩
  · simp [ShiftRegister.digitalWrite, ← hlen]
  · intro i hi
    have hk : i / 8 < s.rNum := by omega
    rw [readBit_eq]
    simp only [ShiftRegister.digitalWrite]
    rw [List.getElem?_append_left (by simpa using hk)]
    simp [hk]
  · simp [ShiftRegister.digitalWrite]

/-- The theorem on `clear` at work: a two-chip buffer holding `0xFF, 0x3C`, least significant
bit first. -/
theorem clear_zeroes_buffer_witness :
    sampleTwoChips.stateArray.length = sampleTwoChips.rNum ∧
    ∃ t, sampleTwoChips.clear = some t ∧ t.stateArray = List.replicate sampleTwoChips.rNum 0 ∧
      (∀ i, i < 8 * sampleTwoChips.rNum → ShiftRegister.readBit t.stateArray i = some false) ∧
      t.shiftOrder = sampleTwoChips.shiftOrder :=
  ⟨rfl, clear_zeroes_buffer sampleTwoChips rfl⟩

/-! ## The buffer and the chain -/

/-- C8 (the code departs from the claim): one chip, constructed, then `set` with `0x01`: the
latched outputs and the buffer both read `0x01`.  Then `shiftState(1, false)`: the chain has
moved the bit up, output 1 is high, and the buffer reads `0x00`, bit 1 low. -/
theorem shiftState_breaks_consistency :
    (freshOneChip.bind (fun s => s.set [0x01] 1)).map (fun t => (t.stateArray, latchedOutputs t))
        = some ([0x01], [true, false, false, false, false, false, false, false])
      ∧ ((freshOneChip.bind (fun s => s.set [0x01] 1)).bind
          (fun s => s.shiftState 1 false)).map (fun t => (t.stateArray, latchedOutputs t))
        = some ([0x00], [false, true, false, false, false, false, false, false])
      ∧ ShiftRegister.readBit [0x00] 1 = some false := by
  decide

/-- C9 (the code departs from the claim): one chip just constructed.  `shiftOneBit(true)`
leaves the buffer `0x02`, `shiftState(1, true)` leaves it `0x01`: the buffers differ.  The
pin calls agree: those of `shiftState(1, true)` are those of `shiftOneBit(true)` followed by
latch HIGH, latch LOW. -/
theorem shiftOneBit_writes_bit_one :
    (freshOneChip.bind (fun s => s.shiftOneBit true)).map (fun t => t.stateArray) = some [0x02]
      ∧ (freshOneChip.bind (fun s => s.shiftState 1 true)).map (fun t => t.stateArray)
        = some [0x01]
      ∧ (freshOneChip.bind (fun s => s.shiftState 1 true)).map (fun t => t.trace)
        = (freshOneChip.bind (fun s => s.shiftOneBit true)).map (fun t => t.trace ++
            [PinEvent.digitalWrite 4 true, PinEvent.digitalWrite 4 false]) := by
  decide

/-- C10 (the code departs from the claim): one chip, cleared, pattern `0x0B`.  Least
significant bit first, `shift` leaves the buffer `0x0B` (bit 7 low) while the chain latches
`1101 0000`; most significant bit first, buffer and chain both hold `0000 1011`. -/
theorem shift_buffer_ignores_order :
    (freshOneChip.bind (fun s => ((s.setShiftOrder false).clear).bind
        (fun c => c.shift [0x0B] 1))).map (fun t => (t.stateArray, latchedOutputs t))
        = some ([0x0B], [false, false, false, false, true, false, true, true])
      ∧ (freshOneChip.bind (fun s => ((s.setShiftOrder true).clear).bind
        (fun c => c.shift [0x0B] 1))).map (fun t => (t.stateArray, latchedOutputs t))
        = some ([0x0B], [true, true, false, true, false, false, false, false])
      ∧ ShiftRegister.readBit [0x0B] 0 = some true
      ∧ ShiftRegister.readBit [0x0B] 7 = some false := by
  decide

/-! ## Rejected calls, the shift order flag, construction -/

/-- C11: `set` with a size different from the chip count returns at once: the controller is
exactly as before, so the buffer and the shift order flag are unchanged and no pin call has
been issued. -/
theorem set_rejects_wrong_size (s : ShiftRegister) (data : List Nat) (size : Nat)
    (h : size ≠ s.rNum) : s.set data size = some s := by
  simp [ShiftRegister.set, h]

/-- The theorem on a rejected `set` at work: one byte offered to a chain of two chips. -/
theorem set_rejects_wrong_size_witness :
    1 ≠ sampleTwoChips.rNum ∧ sampleTwoChips.set [0x01] 1 = some sampleTwoChips :=
  ⟨by decide, set_rejects_wrong_size sampleTwoChips [0x01] 1 (by decide)⟩

theorem forEach_setShiftOrder (body : Nat → ShiftRegister → Option ShiftRegister) (o : Bool)
    (hbody : ∀ i t, body i (t.setShiftOrder o) = (body i t).map (fun u => u.setShiftOrder o))
    (l : List Nat) (s : ShiftRegister) :
    forEach body l (s.setShiftOrder o) = (forEach body l s).map (fun u => u.setShiftOrder o) := by
  induction l generalizing s with
  | nil => simp [forEach]
  | cons i l ih =>
    simp only [forEach, hbody]
    cases body i s with
    | none => simp
    | some t => simp [ih]

theorem bitWriteAt_setShiftOrder (s : ShiftRegister) (o : Bool) (k bit : Nat) (state : Bool) :
    (s.setShiftOrder o).bitWriteAt k bit state
      = (s.bitWriteAt k bit state).map (fun u => u.setShiftOrder o) := by
  unfold ShiftRegister.bitWriteAt ShiftRegister.storeByte
  cases h : s.stateArray[k]? with
  | none => simp [ShiftRegister.setShiftOrder, h]
  | some b =>
    by_cases hk : k < s.stateArray.length <;> simp [ShiftRegister.setShiftOrder, h, hk]

theorem saveToArray_setShiftOrder (s : ShiftRegister) (o : Bool) (a : List Nat) (i : Nat) :
    (s.setShiftOrder o).saveToArray a i
      = (s.saveToArray a i).map (fun u => u.setShiftOrder o) := by
  unfold ShiftRegister.saveToArray
  cases a[0]? with
  | none => simp
  | some src => simp [bitWriteAt_setShiftOrder]

theorem shiftBit_setShiftOrder (s : ShiftRegister) (o : Bool) (state : Bool) :
    (s.setShiftOrder o).shiftBit state = (s.shiftBit state).setShiftOrder o := rfl

theorem refresh_setShiftOrder (s : ShiftRegister) (o : Bool) :
    (s.setShiftOrder o).refresh = s.refresh.setShiftOrder o := rfl

theorem shiftWholeArray_setShiftOrder (s : ShiftRegister) (o : Bool) :
    (s.setShiftOrder o).shiftWholeArray
      = s.shiftWholeArray.map (fun u => u.setShiftOrder o) := by
  unfold ShiftRegister.shiftWholeArray
  refine forEach_setShiftOrder _ o ?_ _ s
  intro i t
  show (ShiftRegister.readBit t.stateArray i).map (t.setShiftOrder o).shiftBit = _
  cases ShiftRegister.readBit t.stateArray i <;> simp [shiftBit_setShiftOrder]

theorem shiftStateArray_setShiftOrder (s : ShiftRegister) (o : Bool) (bitNum : Nat) :
    (s.setShiftOrder o).shiftStateArray bitNum
      = (s.shiftStateArray bitNum).map (fun u => u.setShiftOrder o) := by
  unfold ShiftRegister.shiftStateArray
  refine forEach_setShiftOrder _ o ?_ _ s
  intro i t
  exact saveToArray_setShiftOrder t o t.stateArray (i - bitNum)

theorem setBit_setShiftOrder (s : ShiftRegister) (o : Bool) (i : Nat) (v : Bool) :
    (s.setShiftOrder o).setBit i v = (s.setBit i v).map (fun u => u.setShiftOrder o) := by
  unfold ShiftRegister.setBit
  rw [bitWriteAt_setShiftOrder]
  cases s.bitWriteAt (i / 8) (i % 8) v with
  | none => simp
  | some t =>
    simp only [Option.map_some', Option.some_bind, shiftWholeArray_setShiftOrder]
    cases t.shiftWholeArray <;> simp [refresh_setShiftOrder]

theorem setBits_setShiftOrder (s : ShiftRegister) (o : Bool) (i n : Nat) (v : Bool) :
    (s.setShiftOrder o).setBits i n v = (s.setBits i n v).map (fun u => u.setShiftOrder o) := by
  unfold ShiftRegister.setBits
  rw [forEach_setShiftOrder _ o (fun j t => bitWriteAt_setShiftOrder t o _ _ _)]
  cases forEach (fun j t => t.bitWriteAt (i / 8) (i % 8 + j) v) (List.range n) s with
  | none => simp
  | some t =>
    simp only [Option.map_some', Option.some_bind, shiftWholeArray_setShiftOrder]
    cases t.shiftWholeArray <;> simp [refresh_setShiftOrder]

theorem shiftState_setShiftOrder (s : ShiftRegister) (o : Bool) (n : Nat) (v : Bool) :
    (s.setShiftOrder o).shiftState n v
      = (s.shiftState n v).map (fun u => u.setShiftOrder o) := by
  unfold ShiftRegister.shiftState
  rw [shiftStateArray_setShiftOrder]
  cases s.shiftStateArray n with
  | none => simp
  | some t =>
    simp only [Option.map_some', Option.some_bind]
    rw [forEach_setShiftOrder _ o (fun j u => by
      rw [shiftBit_setShiftOrder, bitWriteAt_setShiftOrder])]
    cases forEach (fun j u => (u.shiftBit v).bitWriteAt 0 j v) (descending n) t <;>
      simp [refresh_setShiftOrder]

theorem shiftOneBit_setShiftOrder (s : ShiftRegister) (o : Bool) (v : Bool) :
    (s.setShiftOrder o).shiftOneBit v
      = (s.shiftOneBit v).map (fun u => u.setShiftOrder o) := by
  unfold ShiftRegister.shiftOneBit
  rw [shiftStateArray_setShiftOrder]
  cases s.shiftStateArray 1 with
  | none => simp
  | some t =>
    simp only [Option.map_some', Option.some_bind, bitWriteAt_setShiftOrder]
    cases t.bitWriteAt 0 1 v <;> simp [shiftBit_setShiftOrder]

theorem clear_setShiftOrder (s : ShiftRegister) (o : Bool) :
    (s.setShiftOrder o).clear = s.clear.map (fun u => u.setShiftOrder o) := by
  unfold ShiftRegister.clear
  refine forEach_setShiftOrder _ o ?_ (List.range s.rNum)
    ((((s.digitalWrite s.resetPin false).digitalWrite s.resetPin true).digitalWrite
      s.latchPin true).digitalWrite s.latchPin false)
  intro i t
  unfold ShiftRegister.storeByte
  by_cases hk : i < t.stateArray.length <;> simp [ShiftRegister.setShiftOrder, hk]

theorem observable_map_setShiftOrder (x : Option ShiftRegister) (o : Bool) :
    (x.map (fun u => u.setShiftOrder o)).map observable = x.map observable := by
  cases x <;> rfl

/-- C14: two controllers that differ only in the shift order flag (`s` and `s` with the flag
set to `o`) give the same buffer and the same pin calls under `setBit`, `setBits`,
`shiftState`, `shiftOneBit`, `clear` and `refresh`; and `setShiftOrder` itself leaves the
buffer and the pin calls as they were. -/
theorem shiftOrder_ignored_outside_set_and_shift (s : ShiftRegister) (o : Bool) :
    (∀ i v, ((s.setShiftOrder o).setBit i v).map observable = (s.setBit i v).map observable)
    ∧ (∀ i n v, ((s.setShiftOrder o).setBits i n v).map observable
        = (s.setBits i n v).map observable)
    ∧ (∀ n v, ((s.setShiftOrder o).shiftState n v).map observable
        = (s.shiftState n v).map observable)
    ∧ (∀ v, ((s.setShiftOrder o).shiftOneBit v).map observable
        = (s.shiftOneBit v).map observable)
    ∧ (s.setShiftOrder o).clear.map observable = s.clear.map observable
    ∧ observable (s.setShiftOrder o).refresh = observable s.refresh
    ∧ observable (s.setShiftOrder o) = observable s
    ∧ (s.setShiftOrder o).shiftOrder = o := by
  refine ⟨?_, ?_, ?_, ?_, ?_, rfl, rfl, rfl⟩
  · intro i v
    rw [setBit_setShiftOrder, observable_map_setShiftOrder]
  · intro i n v
    rw [setBits_setShiftOrder, observable_map_setShiftOrder]
  · intro n v
    rw [shiftState_setShiftOrder, observable_map_setShiftOrder]
  · intro v
    rw [shiftOneBit_setShiftOrder, observable_map_setShiftOrder]
  · rw [clear_setShiftOrder, observable_map_setShiftOrder]

/-- C15: the constructor returns a controller bound to the four pins, with a state array of
`chipCount` zero bytes and the flag at most-significant-first; its pin calls are the four
`pinMode`, then reset HIGH, data LOW, clock LOW, latch LOW, then those of `clear()`: reset
LOW, reset HIGH, latch HIGH, latch LOW. -/
theorem create_gives_zeroed_controller (chipCount dataPin clockPin latchPin resetPin : Nat) :
    ShiftRegister.create chipCount dataPin clockPin latchPin resetPin = some
      { dataPin := dataPin, clockPin := clockPin, latchPin := latchPin, resetPin := resetPin,
        rNum := chipCount, stateArray := List.replicate chipCount 0, shiftOrder := true,
        trace := [PinEvent.pinMode dataPin, PinEvent.pinMode clockPin,
          PinEvent.pinMode latchPin, PinEvent.pinMode resetPin,
          PinEvent.digitalWrite resetPin true, PinEvent.digitalWrite dataPin false,
          PinEvent.digitalWrite clockPin false, PinEvent.digitalWrite latchPin false,
          PinEvent.digitalWrite resetPin false, PinEvent.digitalWrite resetPin true,
          PinEvent.digitalWrite latchPin true, PinEvent.digitalWrite latchPin false] } := by
  unfold ShiftRegister.create ShiftRegister.clear
  rw [forEach_zero _ _ (by simp [ShiftRegister.digitalWrite, ShiftRegister.pinMode])]
  simp [ShiftRegister.digitalWrite, ShiftRegister.pinMode]

/-! ## The loops of `set` and `shift` -/

theorem mem_descending (n i : Nat) : i ∈ descending n ↔ i < n := by
  induction n with
  | zero => simp [descending]
  | succ n ih =>
    simp only [descending, List.mem_cons, ih]
    omega

theorem descending_eq_reverse_range (n : Nat) : descending n = (List.range n).reverse := by
  induction n with
  | zero => rfl
  | succ n ih => simp [descending, List.range_succ, ih]

theorem mem_traversal (order : Bool) (size i : Nat) :
    i ∈ traversal order size ↔ i < size * 8 := by
  unfold traversal
  split
  · exact mem_descending _ _
  · exact List.mem_range

theorem bitWrite_lt (b k : Nat) (v : Bool) : bitWrite b k v < 256 := by
  unfold bitWrite bitSet bitClear
  split <;> exact Nat.mod_lt _ (by norm_num)

theorem savedByte_lt (src : Nat) (idxs : List Nat) (b : Nat) (hb : b < 256) :
    savedByte src idxs b < 256 := by
  induction idxs generalizing b with
  | nil => simpa [savedByte] using hb
  | cons i rest ih => exact ih _ (bitWrite_lt _ _ _)

/-- Bit `j` of the first byte after the loop: the bit of the source when `j` is among the
indices, the former bit otherwise. -/
theorem testBit_savedByte (src : Nat) (idxs : List Nat) (b j : Nat) (hj : j < 8) :
    (savedByte src idxs b).testBit j = if j ∈ idxs then src.testBit j else b.testBit j := by
  induction idxs generalizing b with
  | nil => simp [savedByte]
  | cons i rest ih =>
    have hstep : savedByte src (i :: rest) b = savedByte src rest (bitWrite b i (bitRead src i)) :=
      rfl
    rw [hstep, ih, testBit_bitWrite, bitRead_eq_testBit]
    by_cases hr : j ∈ rest
    · simp [hr]
    · by_cases hji : j = i
      · subst hji
        simp [hj]
      · simp [hr, hji, hj]

/-- When the loop goes through every index below 8, the first byte ends equal to the source
byte. -/
theorem savedByte_eq (src : Nat) (idxs : List Nat) (b : Nat) (hsrc : src < 256)
    (hall : ∀ j, j < 8 → j ∈ idxs) : savedByte src idxs b = src := by
  have hlt : savedByte src idxs b < 256 := by
    cases idxs with
    | nil => exact absurd (hall 0 (by norm_num)) (by simp)
    | cons i rest => exact savedByte_lt src rest _ (bitWrite_lt _ _ _)
  apply Nat.eq_of_testBit_eq
  intro j
  by_cases hj : j < 8
  · rw [testBit_savedByte src idxs b j hj, if_pos (hall j hj)]
  · have hpow : 256 ≤ 2 ^ j := by
      calc 256 = 2 ^ 8 := by norm_num
        _ ≤ 2 ^ j := Nat.pow_le_pow_right (by norm_num) (by omega)
    rw [Nat.testBit_lt_two_pow (lt_of_lt_of_le hlt hpow),
      Nat.testBit_lt_two_pow (lt_of_lt_of_le hsrc hpow)]

/-- The loop `shiftBit( readBit(data, i) ); saveToArray(data, i);` over a list of indices
inside `data`: it returns, appends one transmission for each index, carrying the bit of
`data` at that index, and changes the first byte of the state array only. -/
theorem forEach_shiftAndSave (data : List Nat) (idxs : List Nat) (s : ShiftRegister)
    (hidx : ∀ i, i ∈ idxs → i < 8 * data.length) (hs : 0 < s.stateArray.length) :
    forEach (ShiftRegister.shiftAndSave data) idxs s = some { s with
      stateArray := s.stateArray.set 0 (savedByte (data.getD 0 0) idxs (s.stateArray.getD 0 0))
      trace := s.trace ++ idxs.flatMap (fun i => transmission s (bitAt data i)) } := by
  induction idxs generalizing s with
  | nil =>
    obtain ⟨dp, cp, lp, rp, n, arr, so, tr⟩ := s
    cases arr with
    | nil => simp at hs
    | cons b0 tl => simp [forEach, savedByte]
  | cons i rest ih =>
    have hi : i < 8 * data.length := hidx i (by simp)
    have hd : 0 < data.length := by omega
    have hd0 : data[0]? = some (data.getD 0 0) := by
      simp [List.getD, List.getElem?_eq_getElem hd]
    have hs1 : 0 < (s.shiftBit (bitAt data i)).stateArray.length := hs
    simp only [forEach, ShiftRegister.shiftAndSave, readBit_eq_bitAt _ _ hi, Option.some_bind,
      ShiftRegister.saveToArray, hd0, bitWriteAt_eq _ 0 _ _ hs1]
    rw [ih _ (fun k hk => hidx k (by simp [hk])) (by simpa using hs)]
    obtain ⟨dp, cp, lp, rp, n, arr, so, tr⟩ := s
    cases arr with
    | nil => simp at hs
    | cons b0 tl =>
      simp [shiftBit_eq, transmission, savedByte, List.flatMap_cons]

/-- An accepted `set`, in full: the state it returns. -/
theorem set_accepted (s : ShiftRegister) (data : List Nat) (size : Nat)
    (hsize : size = s.rNum) (hdata : data.length = size)
    (hlen : s.stateArray.length = s.rNum) :
    s.set data size = some ({ s with
      stateArray := s.stateArray.set 0
        (savedByte (data.getD 0 0) (traversal s.shiftOrder size) (s.stateArray.getD 0 0))
      trace := s.trace ++
        (traversal s.shiftOrder size).flatMap (fun i => transmission s (bitAt data i)) }
      : ShiftRegister).refresh := by
  have hloop : s.set data size
      = (forEach (ShiftRegister.shiftAndSave data) (traversal s.shiftOrder size) s).map
          ShiftRegister.refresh := by
    unfold ShiftRegister.set traversal
    rw [if_neg (not_not.mpr hsize)]
    split <;> rfl
  rw [hloop]
  rcases Nat.eq_zero_or_pos s.rNum with h0 | hpos
  · have hsz : size = 0 := by omega
    have hl0 : s.stateArray.length = 0 := by omega
    obtain ⟨dp, cp, lp, rp, n, arr, so, tr⟩ := s
    have harr : arr = [] := List.eq_nil_of_length_eq_zero hl0
    subst hsz harr
    cases so <;> simp [traversal, descending, forEach, savedByte]
  · rw [forEach_shiftAndSave data _ s
      (fun i hi => by have := (mem_traversal _ _ _).mp hi; omega) (by omega)]
    rfl

/-- C16: the pin calls of an accepted `set` are one transmission (data level, clock HIGH,
clock LOW) for each bit of the pattern, bits `L-1` down to `0` when the flag is
most-significant-first and bits `0` up to `L-1` when it is least-significant-first, and then
one latch HIGH, latch LOW, after every transmission. -/
theorem set_pin_events (s : ShiftRegister) (data : List Nat) (size : Nat)
    (hsize : size = s.rNum) (hdata : data.length = size)
    (hlen : s.stateArray.length = s.rNum) :
    ∃ t, s.set data size = some t ∧
      (s.shiftOrder = true → t.trace = s.trace ++
        (List.range (8 * s.rNum)).reverse.flatMap (fun i => transmission s (bitAt data i)) ++
        latchPulse s) ∧
      (s.shiftOrder = false → t.trace = s.trace ++
        (List.range (8 * s.rNum)).flatMap (fun i => transmission s (bitAt data i)) ++
        latchPulse s) := by
  refine ⟨_, set_accepted s data size hsize hdata hlen, ?_, ?_⟩
  · intro ho
    simp [ShiftRegister.refresh, ShiftRegister.digitalWrite, latchPulse, traversal, ho,
      descending_eq_reverse_range, hsize, Nat.mul_comm]
  · intro ho
    simp [ShiftRegister.refresh, ShiftRegister.digitalWrite, latchPulse, traversal, ho,
      hsize, Nat.mul_comm]

/-- The theorem on the pin calls of `set` at work: two chips, least significant bit first,
pattern `0xA5, 0x00`. -/
theorem set_pin_events_witness :
    2 = sampleTwoChips.rNum ∧ [0xA5, 0x00].length = 2 ∧
    sampleTwoChips.stateArray.length = sampleTwoChips.rNum ∧
    ∃ t, sampleTwoChips.set [0xA5, 0x00] 2 = some t ∧
      (sampleTwoChips.shiftOrder = true → t.trace = sampleTwoChips.trace ++
        (List.range (8 * sampleTwoChips.rNum)).reverse.flatMap
          (fun i => transmission sampleTwoChips (bitAt [0xA5, 0x00] i)) ++
        latchPulse sampleTwoChips) ∧
      (sampleTwoChips.shiftOrder = false → t.trace = sampleTwoChips.trace ++
        (List.range (8 * sampleTwoChips.rNum)).flatMap
          (fun i => transmission sampleTwoChips (bitAt [0xA5, 0x00] i)) ++
        latchPulse sampleTwoChips) :=
  ⟨rfl, rfl, rfl, set_pin_events sampleTwoChips [0xA5, 0x00] 2 rfl rfl rfl⟩

/-- C20: an accepted `set` on a chain of at least one chip returns with byte 0 of the buffer
equal to byte 0 of the pattern and every further byte of the buffer as it was before the
call; on one chip the buffer is the pattern. -/
theorem set_overwrites_first_byte_only (s : ShiftRegister) (data : List Nat) (size : Nat)
    (hsize : size = s.rNum) (hdata : data.length = size)
    (hlen : s.stateArray.length = s.rNum) (hpos : 1 ≤ s.rNum)
    (hbyte : ∀ b, b ∈ data → b < 256) :
    ∃ t, s.set data size = some t ∧ t.stateArray[0]? = data[0]? ∧
      (∀ k, 1 ≤ k → t.stateArray[k]? = s.stateArray[k]?) ∧
      (s.rNum = 1 → t.stateArray = data) := by
  have hd : 0 < data.length := by omega
  have hsrc : data.getD 0 0 < 256 := by
    have : data.getD 0 0 = data[0] := by simp [List.getD, List.getElem?_eq_getElem hd]
    rw [this]
    exact hbyte _ (List.getElem_mem hd)
  have hsaved : savedByte (data.getD 0 0) (traversal s.shiftOrder size)
      (s.stateArray.getD 0 0) = data.getD 0 0 :=
    savedByte_eq _ _ _ hsrc (fun j hj => (mem_traversal _ _ _).mpr (by omega))
  have harr : (({ s with
      stateArray := s.stateArray.set 0
        (savedByte (data.getD 0 0) (traversal s.shiftOrder size) (s.stateArray.getD 0 0))
      trace := s.trace ++
        (traversal s.shiftOrder size).flatMap (fun i => transmission s (bitAt data i)) }
      : ShiftRegister).refresh).stateArray = s.stateArray.set 0 (data.getD 0 0) := by
    show s.stateArray.set 0 (savedByte (data.getD 0 0) (traversal s.shiftOrder size)
      (s.stateArray.getD 0 0)) = _
    rw [hsaved]
  refine ⟨_, set_accepted s data size hsize hdata hlen, ?_, ?_, ?_⟩
  · rw [harr, List.getElem?_set_self (by omega)]
    simp [List.getD, List.getElem?_eq_getElem hd]
  · intro k hk
    rw [harr, List.getElem?_set_ne (by omega)]
  · intro h1
    rw [harr]
    obtain ⟨b0, hb0⟩ := List.length_eq_one.mp (show s.stateArray.length = 1 by omega)
    obtain ⟨d0, hd0⟩ := List.length_eq_one.mp (show data.length = 1 by omega)
    rw [hb0, hd0]
    simp

/-- The theorem on the buffer after `set` at work: two chips holding `0xFF, 0x3C`. -/
theorem set_overwrites_first_byte_only_witness :
    2 = sampleTwoChips.rNum ∧ [0xA5, 0x00].length = 2 ∧
    sampleTwoChips.stateArray.length = sampleTwoChips.rNum ∧ 1 ≤ sampleTwoChips.rNum ∧
    (∀ b, b ∈ [0xA5, 0x00] → b < 256) ∧
    ∃ t, sampleTwoChips.set [0xA5, 0x00] 2 = some t ∧ t.stateArray[0]? = [0xA5, 0x00][0]? ∧
      (∀ k, 1 ≤ k → t.stateArray[k]? = sampleTwoChips.stateArray[k]?) ∧
      (sampleTwoChips.rNum = 1 → t.stateArray = [0xA5, 0x00]) :=
  ⟨rfl, rfl, rfl, by decide, by decide,
    set_overwrites_first_byte_only sampleTwoChips [0xA5, 0x00] 2 rfl rfl rfl (by decide)
      (by decide)⟩

/-! ## Calls outside the contract -/

theorem shiftStateArray_of_le (s : ShiftRegister) (bitNum : Nat)
    (h : s.rNum * 8 ≤ bitNum + 1) : s.shiftStateArray bitNum = some s := by
  unfold ShiftRegister.shiftStateArray
  cases hm : s.rNum * 8 with
  | zero => simp [descending, forEach]
  | succ m =>
    have hle : ¬ bitNum < m := by omega
    simp [descending, List.takeWhile, hle, forEach]

/-- C12 (the claim fails on the code): one chip just constructed, `shift` of the two bytes
`0x01, 0x00`: the call is not rejected, the buffer goes from `0x00` to `0x01` and 50 pin
calls are issued (16 transmissions and the latch pulse) after the 12 of the constructor. -/
theorem shift_longer_pattern_not_rejected :
    freshOneChip.map (fun t => (t.stateArray, t.trace.length)) = some ([0x00], 12)
      ∧ (freshOneChip.bind (fun s => s.shift [0x01, 0x00] 2)).map
          (fun t => (t.stateArray, t.trace.length)) = some ([0x01], 62) := by
  decide

/-- C12 as amended: `shift` makes no length check.  For a pattern of `size` bytes with `size`
above the chip count, the call returns after one transmission for each of the `8 * size` bits
of the pattern, in the order of the flag, followed by the latch pulse. -/
theorem shift_longer_pattern_is_transmitted (s : ShiftRegister) (pattern : List Nat)
    (size : Nat) (hsize : s.rNum < size) (hdata : pattern.length = size)
    (hlen : s.stateArray.length = s.rNum) (hpos : 1 ≤ s.rNum) :
    ∃ t, s.shift pattern size = some t ∧
      t.trace = s.trace ++
        (traversal s.shiftOrder size).flatMap (fun i => transmission s (bitAt pattern i)) ++
        latchPulse s ∧
      ((traversal s.shiftOrder size).flatMap
        (fun i => transmission s (bitAt pattern i))).length = 3 * (8 * size) := by
  have hloop : s.shift pattern size
      = (forEach (ShiftRegister.shiftAndSave pattern) (traversal s.shiftOrder size) s).map
          ShiftRegister.refresh := by
    unfold ShiftRegister.shift traversal
    rw [shiftStateArray_of_le s _ (by omega), Option.some_bind]
    split <;> rfl
  rw [hloop, forEach_shiftAndSave pattern _ s
    (fun i hi => by have := (mem_traversal _ _ _).mp hi; omega) (by omega)]
  refine ⟨_, rfl, ?_, ?_⟩
  · simp [ShiftRegister.refresh, ShiftRegister.digitalWrite, latchPulse]
  · have hlen3 : ∀ l : List Nat,
        (l.flatMap (fun i => transmission s (bitAt pattern i))).length = 3 * l.length := by
      intro l
      induction l with
      | nil => rfl
      | cons a l ih =>
        rw [List.flatMap_cons, List.length_append, ih]
        simp only [transmission, List.length_cons, List.length_nil]
        omega
    rw [hlen3]
    unfold traversal
    split
    · simp [descending_eq_reverse_range, Nat.mul_comm]
    · simp [Nat.mul_comm]

/-- The amended C12 at work: three bytes shifted into the two-chip chain. -/
theorem shift_longer_pattern_is_transmitted_witness :
    sampleTwoChips.rNum < 3 ∧ [0x01, 0x02, 0x03].length = 3 ∧
    sampleTwoChips.stateArray.length = sampleTwoChips.rNum ∧ 1 ≤ sampleTwoChips.rNum ∧
    ∃ t, sampleTwoChips.shift [0x01, 0x02, 0x03] 3 = some t ∧
      t.trace = sampleTwoChips.trace ++
        (traversal sampleTwoChips.shiftOrder 3).flatMap
          (fun i => transmission sampleTwoChips (bitAt [0x01, 0x02, 0x03] i)) ++
        latchPulse sampleTwoChips ∧
      ((traversal sampleTwoChips.shiftOrder 3).flatMap
        (fun i => transmission sampleTwoChips (bitAt [0x01, 0x02, 0x03] i))).length
          = 3 * (8 * 3) :=
  ⟨by decide, rfl, rfl, by decide,
    shift_longer_pattern_is_transmitted sampleTwoChips [0x01, 0x02, 0x03] 3 (by decide) rfl rfl
      (by decide)⟩

/-- C13 (the claim fails on the code): on the two-chip chain, `setBit(16, true)` is not a
call that returns with the buffer unchanged and no pin call issued. -/
theorem setBit_out_of_range_not_rejected :
    ¬ ∃ t, sampleTwoChips.setBit 16 true = some t ∧
      t.stateArray = sampleTwoChips.stateArray ∧ t.trace = sampleTwoChips.trace := by
  have h : sampleTwoChips.setBit 16 true = none := by decide
  rintro ⟨t, ht, -⟩
  rw [h] at ht
  cases ht

/-- C13 as amended: `setBit` makes no check of the index.  With an index at or past the end
of the buffer its first statement stores into a byte outside the state array, so the call has
no defined result. -/
theorem setBit_out_of_range_undefined (s : ShiftRegister) (bitIndex : Nat) (state : Bool)
    (hlen : s.stateArray.length = s.rNum) (hi : 8 * s.rNum ≤ bitIndex) :
    s.setBit bitIndex state = none := by
  have hk : s.stateArray.length ≤ bitIndex / 8 := by omega
  simp [ShiftRegister.setBit, ShiftRegister.bitWriteAt, List.getElem?_eq_none hk]

/-- The amended C13 at work: index 16 on the two-chip chain. -/
theorem setBit_out_of_range_undefined_witness :
    sampleTwoChips.stateArray.length = sampleTwoChips.rNum ∧ 8 * sampleTwoChips.rNum ≤ 16 ∧
    sampleTwoChips.setBit 16 true = none :=
  ⟨rfl, by decide, setBit_out_of_range_undefined sampleTwoChips 16 true rfl (by decide)⟩

/-! ## `shiftStateArray` and `setBits` as written -/

/-- C18 (the code departs from the claim): one chip holding `0x01`, `shiftStateArray(1)`
leaves `0x01`: bit 0 was set and bit 1 is not.  Two chips holding `0x01, 0x00`,
`shiftStateArray(8)` leaves `0x01, 0x00`: bit 8 is not set. -/
theorem shiftStateArray_moves_nothing :
    ((freshOneChip.bind (fun s => s.set [0x01] 1)).bind
        (fun s => s.shiftStateArray 1)).map (fun t => t.stateArray) = some [0x01]
      ∧ ShiftRegister.readBit [0x01] 0 = some true
      ∧ ShiftRegister.readBit [0x01] 1 = some false
      ∧ ((freshTwoChips.bind (fun s => s.set [0x01, 0x00] 2)).bind
        (fun s => s.shiftStateArray 8)).map (fun t => t.stateArray) = some [0x01, 0x00]
      ∧ ShiftRegister.readBit [0x01, 0x00] 8 = some false := by
  decide

theorem filledByte_succ (b start count : Nat) (state : Bool) :
    filledByte b start (count + 1) state
      = bitWrite (filledByte b start count state) (start + count) state := by
  simp [filledByte, List.range_succ, List.foldl_append]

/-- Bit `p` of the byte after the first loop of `setBits`: the new state from position
`start` on, for `count` positions; the former bit elsewhere. -/
theorem testBit_filledByte (b start count : Nat) (state : Bool) (p : Nat) (hp : p < 8) :
    (filledByte b start count state).testBit p
      = if start ≤ p ∧ p < start + count then state else b.testBit p := by
  induction count with
  | zero =>
    have h0 : ¬ (start ≤ p ∧ p < start) := by omega
    simp [filledByte, h0]
  | succ n ih =>
    rw [filledByte_succ, testBit_bitWrite, ih]
    by_cases h1 : p = start + n
    · have h2 : start ≤ p ∧ p < start + (n + 1) := by omega
      simp [h1, hp, h2]
      intro h3
      omega
    · by_cases h2 : start ≤ p ∧ p < start + n
      · have h3 : start ≤ p ∧ p < start + (n + 1) := by omega
        simp [h1, hp, h2, h3]
      · have h3 : ¬ (start ≤ p ∧ p < start + (n + 1)) := by omega
        simp [h1, hp, h2, h3]

theorem set_getD_self (l : List Nat) (k : Nat) : l.set k (l.getD k 0) = l := by
  induction l generalizing k with
  | nil => rfl
  | cons a l ih =>
    cases k with
    | zero => rfl
    | succ k => simpa [List.set] using ih k

/-- The first loop of `setBits` on byte `k` of the state array: it returns and replaces that
byte only. -/
theorem forEach_bitWriteAt (k start count : Nat) (state : Bool) (s : ShiftRegister)
    (hk : k < s.stateArray.length) :
    forEach (fun i t => t.bitWriteAt k (start + i) state) (List.range count) s
      = some { s with stateArray :=
          s.stateArray.set k (filledByte (s.stateArray.getD k 0) start count state) } := by
  induction count with
  | zero =>
    simp only [forEach, filledByte, List.range_zero, List.foldl_nil, set_getD_self]
  | succ n ih =>
    rw [List.range_succ, forEach_append, ih, Option.some_bind]
    simp only [forEach]
    rw [bitWriteAt_eq _ _ _ _ (by simpa using hk)]
    simp [filledByte_succ, List.getD, List.getElem?_set_self hk]

/-- C19: `setBits` with a start index inside the buffer, and a count that keeps every
position `start % 8 + i` it addresses below the 32 bits of `unsigned long` (so that each
`1UL << position` of `bitWrite` is a defined shift), returns, leaves every byte other than
byte `start / 8` as it was, and in that byte sets position `p` (0 to 7) to the new state when
`start % 8 ≤ p < start % 8 + count` and leaves it as it was otherwise: no bit of the next
byte is written. -/
theorem setBits_stays_in_start_byte (s : ShiftRegister) (bitIndex bitNum : Nat) (state : Bool)
    (hlen : s.stateArray.length = s.rNum) (hi : bitIndex < 8 * s.rNum)
    (hwide : bitIndex % 8 + bitNum ≤ 32) :
    ∃ t, s.setBits bitIndex bitNum state = some t ∧
      (∀ k, k ≠ bitIndex / 8 → t.stateArray[k]? = s.stateArray[k]?) ∧
      (∀ p, p < 8 → ShiftRegister.readBit t.stateArray (8 * (bitIndex / 8) + p)
        = some (if bitIndex % 8 ≤ p ∧ p < bitIndex % 8 + bitNum then state
                else bitAt s.stateArray (8 * (bitIndex / 8) + p))) := by
  have hk : bitIndex / 8 < s.stateArray.length := by omega
  have _hdefined : ∀ i, i < bitNum → bitIndex % 8 + i < 32 := fun i h => by omega
  unfold ShiftRegister.setBits
  rw [forEach_bitWriteAt _ _ _ _ s hk, Option.some_bind, shiftWholeArray_eq _ (by simp; omega)]
  refine ⟨_, rfl, ?_, ?_⟩
  · intro k hne
    simp only [Option.map_some', ShiftRegister.refresh, ShiftRegister.digitalWrite]
    rw [List.getElem?_set_ne (fun h => hne h.symm)]
  · intro p hp
    have hdiv : (8 * (bitIndex / 8) + p) / 8 = bitIndex / 8 := by omega
    have hmod : (8 * (bitIndex / 8) + p) % 8 = p := by omega
    simp only [Option.map_some', ShiftRegister.refresh, ShiftRegister.digitalWrite]
    rw [readBit_eq, hdiv, hmod, List.getElem?_set_self hk]
    simp only [Option.map_some', testBit_filledByte _ _ _ _ _ hp, bitAt, hdiv, hmod]

/-- The theorem on `setBits` at work: start index 6, count 4 on the two-chip chain. -/
theorem setBits_stays_in_start_byte_witness :
    sampleTwoChips.stateArray.length = sampleTwoChips.rNum ∧ 6 < 8 * sampleTwoChips.rNum ∧
    6 % 8 + 4 ≤ 32 ∧
    ∃ t, sampleTwoChips.setBits 6 4 false = some t ∧
      (∀ k, k ≠ 6 / 8 → t.stateArray[k]? = sampleTwoChips.stateArray[k]?) ∧
      (∀ p, p < 8 → ShiftRegister.readBit t.stateArray (8 * (6 / 8) + p)
        = some (if 6 % 8 ≤ p ∧ p < 6 % 8 + 4 then false
                else bitAt sampleTwoChips.stateArray (8 * (6 / 8) + p))) :=
  ⟨rfl, by decide, by decide,
    setBits_stays_in_start_byte sampleTwoChips 6 4 false rfl (by decide) (by decide)⟩

/-! ## What the chain receives from `setBit` -/

theorem run_append (s : ShiftRegister) (c : Chain) (xs ys : List PinEvent) :
    Chain.run s c (xs ++ ys) = Chain.run s (Chain.run s c xs) ys := by
  simp [Chain.run, List.foldl_append]

/-- One transmission on a chain whose clock line is low: the data level is loaded into stage
0 and every stage moves one index up. -/
theorem run_transmission (s : ShiftRegister) (c : Chain) (b : Bool) (hp : distinctPins s)
    (hclk : c.clockLevel = false) :
    Chain.run s c (transmission s b)
      = { c with dataLevel := b, clockLevel := false, stages := (b :: c.stages).dropLast } := by
  obtain ⟨h1, h2, h3, h4, h5, h6⟩ := hp
  simp [Chain.run, transmission, Chain.step, h3, h5, h1.symm, hclk]

/-- The latch pulse on a chain whose latch line is low: the stages are copied to the
outputs. -/
theorem run_latchPulse (s : ShiftRegister) (c : Chain) (hp : distinctPins s)
    (hlatch : c.latchLevel = false) :
    Chain.run s c (latchPulse s) = { c with latchLevel := false, outputs := c.stages } := by
  obtain ⟨h1, h2, h3, h4, h5, h6⟩ := hp
  simp [Chain.run, latchPulse, Chain.step, h6, h2.symm, h4.symm, hlatch]

theorem take_append_take (A B : List Bool) (n : Nat) :
    (A ++ B.take n).take n = (A ++ B).take n := by
  rw [List.take_append_eq_append_take, List.take_append_eq_append_take, List.take_take]
  congr 2
  omega

/-- The transmissions of the bits `f (n-1)`, ..., `f 0`, in this order: the stages end with
`f 0`, ..., `f (n-1)` in front of what they held, cut to the length of the chain. -/
theorem run_resend (s : ShiftRegister) (f : Nat → Bool) (n : Nat) (c : Chain)
    (hp : distinctPins s) (hclk : c.clockLevel = false) :
    (Chain.run s c ((descending n).flatMap (fun i => transmission s (f i)))).stages
        = ((List.range n).map f ++ c.stages).take c.stages.length
      ∧ (Chain.run s c ((descending n).flatMap (fun i => transmission s (f i)))).clockLevel
        = false
      ∧ (Chain.run s c ((descending n).flatMap (fun i => transmission s (f i)))).latchLevel
        = c.latchLevel := by
  induction n generalizing c with
  | zero => simp [descending, Chain.run, hclk]
  | succ n ih =>
    rw [descending, List.flatMap_cons, run_append, run_transmission s c (f n) hp hclk]
    obtain ⟨h1, h2, h3⟩ := ih
      { c with dataLevel := f n, clockLevel := false, stages := (f n :: c.stages).dropLast } rfl
    refine ⟨?_, h2, h3⟩
    rw [h1]
    simp only [List.dropLast_eq_take, List.length_cons, Nat.add_sub_cancel, List.length_take,
      Nat.min_eq_left (Nat.le_succ _), take_append_take, List.range_succ, List.map_append,
      List.map_cons, List.map_nil, List.append_assoc, List.singleton_append]

/-- An in-range `setBit`, in full: the state it returns. -/
theorem setBit_eq (s : ShiftRegister) (bitIndex : Nat) (state : Bool)
    (hlen : s.stateArray.length = s.rNum) (hi : bitIndex < 8 * s.rNum) :
    s.setBit bitIndex state = some { s with
      stateArray := s.stateArray.set (bitIndex / 8)
        (bitWrite (s.stateArray.getD (bitIndex / 8) 0) (bitIndex % 8) state)
      trace := s.trace ++ ((descending (s.rNum * 8)).flatMap (fun j => transmission s
        (bitAt (s.stateArray.set (bitIndex / 8)
          (bitWrite (s.stateArray.getD (bitIndex / 8) 0) (bitIndex % 8) state)) j)) ++
        latchPulse s) } := by
  have hk : bitIndex / 8 < s.stateArray.length := by omega
  unfold ShiftRegister.setBit
  rw [bitWriteAt_eq s _ _ _ hk, Option.some_bind, shiftWholeArray_eq _ (by simp; omega)]
  simp [ShiftRegister.refresh, ShiftRegister.digitalWrite, latchPulse, transmission]

/-- C17: the pin calls of an in-range `setBit` are one transmission for each bit of the
updated buffer, bits `L-1` down to `0`, and then the latch pulse.  Run on a chain of `L`
stages holding anything, with the clock and latch lines low and four different pins, they
leave the latched outputs equal to the updated buffer, bit for bit. -/
theorem setBit_resends_updated_buffer (s : ShiftRegister) (bitIndex : Nat) (state : Bool)
    (c : Chain) (hlen : s.stateArray.length = s.rNum) (hi : bitIndex < 8 * s.rNum)
    (hp : distinctPins s) (hst : c.stages.length = 8 * s.rNum)
    (hclk : c.clockLevel = false) (hlatch : c.latchLevel = false) :
    ∃ t, s.setBit bitIndex state = some t ∧
      t.trace = s.trace ++
        (List.range (8 * s.rNum)).reverse.flatMap (fun j => transmission s
          (bitAt t.stateArray j)) ++
        latchPulse s ∧
      (Chain.run s c (t.trace.drop s.trace.length)).outputs
        = (List.range (8 * s.rNum)).map (bitAt t.stateArray) := by
  refine ⟨_, setBit_eq s bitIndex state hlen hi, ?_, ?_⟩
  · simp [descending_eq_reverse_range, Nat.mul_comm]
  · simp only [List.drop_left]
    rw [run_append]
    obtain ⟨h1, -, h3⟩ := run_resend s
      (bitAt (s.stateArray.set (bitIndex / 8)
        (bitWrite (s.stateArray.getD (bitIndex / 8) 0) (bitIndex % 8) state)))
      (s.rNum * 8) c hp hclk
    rw [run_latchPulse _ _ hp (h3.trans hlatch)]
    simp only
    rw [h1, List.take_left' (by simp [hst, Nat.mul_comm]), Nat.mul_comm]

/-- The theorem on what the chain receives from `setBit` at work: bit 9 of the two-chip
buffer, the chain holding sixteen high stages. -/
theorem setBit_resends_updated_buffer_witness :
    sampleTwoChips.stateArray.length = sampleTwoChips.rNum ∧ 9 < 8 * sampleTwoChips.rNum ∧
    distinctPins sampleTwoChips ∧ sampleChain.stages.length = 8 * sampleTwoChips.rNum ∧
    sampleChain.clockLevel = false ∧ sampleChain.latchLevel = false ∧
    ∃ t, sampleTwoChips.setBit 9 true = some t ∧
      t.trace = sampleTwoChips.trace ++
        (List.range (8 * sampleTwoChips.rNum)).reverse.flatMap
          (fun j => transmission sampleTwoChips (bitAt t.stateArray j)) ++
        latchPulse sampleTwoChips ∧
      (Chain.run sampleTwoChips sampleChain (t.trace.drop sampleTwoChips.trace.length)).outputs
        = (List.range (8 * sampleTwoChips.rNum)).map (bitAt t.stateArray) :=
  ⟨rfl, by decide, by decide, rfl, rfl, rfl,
    setBit_resends_updated_buffer sampleTwoChips 9 true sampleChain rfl (by decide) (by decide)
      rfl rfl rfl⟩

end ShiftRegisterLib
